import Mathlib

/-!
Verification of the Frontier `Modexp` precompile
(`frame/evm/precompile/modexp/src/lib.rs`).

The Rust source is shallowly embedded below:
* big-endian byte buffers become `List Nat` (each element a byte value),
* `BigUint` values become `Nat`,
* `u64` arithmetic is modelled as `Nat` arithmetic reduced `% 2 ^ 64`
  wherever the source performs a `u64` operation that may wrap,
* the fallible `execute` entry point returns an explicit outcome type, with
  a dedicated constructor modelling a Rust panic (`Option::expect`).
-/

set_option maxRecDepth 20000

/-- `2 ^ 64`, the modulus of `u64` arithmetic. -/
def u64Mod : Nat := 2 ^ 64

/-- `const MIN_GAS_COST: u64 = 200;` from the source. -/
def MIN_GAS_COST : Nat := 200

/-- The source's local helper `fn max(a: u64, b: u64) -> u64`. -/
def maxU64 (a b : Nat) : Nat := if a > b then a else b

/-- The subset of `evm::ExitError` constructors this precompile produces:
`ExitError::Other(message)` and `ExitError::OutOfGas`. -/
inductive ExitError where
  | Other (msg : String)
  | OutOfGas
deriving DecidableEq

/-- Result of `Modexp::execute`.  `ok` is `Ok((ExitSucceed::Returned, output,
gas))`, `err` is `Err(e)`, and `crash` models a Rust panic raised by
`Option::expect` (a panic is not a value of the Rust result type, so it gets
its own constructor). -/
inductive ExecOutcome where
  | ok (output : List Nat) (gasUsed : Nat)
  | err (e : ExitError)
  | crash (msg : String)
deriving DecidableEq

/-- True exactly on the `err` outcomes (a typed `Err` of the Rust result). -/
def isErr : ExecOutcome → Bool
  | .err _ => true
  | _ => false

/-- The `evm::Context` argument (`address`, `caller`, `apparent_value`),
numeric fields modelled as `Nat`.  `Modexp::execute` never reads it. -/
structure Context where
  address : Nat
  caller : Nat
  apparent_value : Nat

/-- Halving recursion for `bitLength`, fuel-structured so that it reduces
in the kernel (`fuel ≥ n` suffices). -/
def bitLengthAux : Nat → Nat → Nat
  | 0, _ => 0
  | fuel + 1, n => if n = 0 then 0 else bitLengthAux fuel (n / 2) + 1

/-- `BigUint::bits()`: bit length of a nonnegative integer, `0` for `0`. -/
def bitLength (n : Nat) : Nat := bitLengthAux n n

/-- `BigUint::from_bytes_be`: big-endian byte decoding. -/
def beDecode (l : List Nat) : Nat := l.foldl (fun a b => 256 * a + b) 0

/-- Minimal big-endian byte encoding of a positive number; fuel-structured
so that it reduces in the kernel (`fuel ≥ n` suffices). -/
def natToBytesBeAux : Nat → Nat → List Nat
  | 0, _ => []
  | fuel + 1, n => if n = 0 then [] else natToBytesBeAux fuel (n / 256) ++ [n % 256]

/-- `BigUint::to_bytes_be`: big-endian encoding; the `num` crate encodes
zero as the single byte `[0]`. -/
def toBytesBe (n : Nat) : List Nat :=
  if n = 0 then [0] else natToBytesBeAux n n

/-- `&l[s..s + n]`: the slice of `n` elements starting at offset `s`. -/
def listSlice (l : List Nat) (s n : Nat) : List Nat := (l.drop s).take n

/-! ## Gas cost (EIP-2565), `calculate_gas_cost` and its two helpers -/

/-- `calculate_multiplication_complexity` from the source: `words` is the
ceiling of `max_length / 8`, and the result is `words * words` (a `u64`
multiplication, hence reduced `% 2 ^ 64`). -/
def calculate_multiplication_complexity (base_length mod_length : Nat) : Nat :=
  let max_length := maxU64 base_length mod_length
  let words := max_length / 8
  let words := if max_length % 8 > 0 then words + 1 else words
  (words * words) % u64Mod

/-- `calculate_iteration_count` from the source.  The `u64` subtractions
`bits - 1` and the additions are wrapping, hence the `% 2 ^ 64`; the bitwise
AND with `2 ^ 256 - 1` (built in the source from 32 `0xFF` bytes) masks the
exponent to its low 256 bits. -/
def calculate_iteration_count (exp_length exponent : Nat) : Nat :=
  let iteration_count : Nat :=
    if exp_length ≤ 32 ∧ exponent = 0 then 0
    else if exp_length ≤ 32 then
      (bitLength exponent + (u64Mod - 1)) % u64Mod
    else
      ((8 * (exp_length - 32)) % u64Mod
        + (bitLength (exponent &&& (2 ^ 256 - 1)) + (u64Mod - 1)) % u64Mod) % u64Mod
  maxU64 iteration_count 1

/-- `calculate_gas_cost` from the source:
`max(MIN_GAS_COST, multiplication_complexity * iteration_count / 3)`,
the product being a `u64` multiplication. -/
def calculate_gas_cost (base_length exp_length mod_length exponent : Nat) : Nat :=
  let multiplication_complexity :=
    calculate_multiplication_complexity base_length mod_length
  let iteration_count := calculate_iteration_count exp_length exponent
  maxU64 MIN_GAS_COST (multiplication_complexity * iteration_count % u64Mod / 3)

/-! ## Overflow-checked variant of the gas computation

Same structure as the source, but every `u64` addition, subtraction and
multiplication is checked: the result is `none` exactly when some
intermediate operation leaves the `u64` range. -/

/-- `u64` checked addition. -/
def checkedAdd (a b : Nat) : Option Nat :=
  if a + b < u64Mod then some (a + b) else none

/-- `u64` checked subtraction. -/
def checkedSub (a b : Nat) : Option Nat :=
  if b ≤ a then some (a - b) else none

/-- `u64` checked multiplication. -/
def checkedMul (a b : Nat) : Option Nat :=
  if a * b < u64Mod then some (a * b) else none

/-- `calculate_multiplication_complexity` with checked `u64` arithmetic. -/
def calculate_multiplication_complexity_checked (base_length mod_length : Nat) :
    Option Nat :=
  let max_length := maxU64 base_length mod_length
  let words := max_length / 8
  (if max_length % 8 > 0 then checkedAdd words 1 else some words).bind fun words =>
    checkedMul words words

/-- `calculate_iteration_count` with checked `u64` arithmetic. -/
def calculate_iteration_count_checked (exp_length exponent : Nat) : Option Nat :=
  (if exp_length ≤ 32 ∧ exponent = 0 then some 0
   else if exp_length ≤ 32 then
     checkedSub (bitLength exponent) 1
   else
     (checkedSub exp_length 32).bind fun d =>
     (checkedMul 8 d).bind fun hi =>
     (checkedSub (bitLength (exponent &&& (2 ^ 256 - 1))) 1).bind fun lo =>
     checkedAdd hi lo).map fun ic =>
    maxU64 ic 1

/-- `calculate_gas_cost` with checked `u64` arithmetic: `none` iff some
intermediate `u64` operation underflows or overflows. -/
def calculate_gas_cost_checked (base_length exp_length mod_length exponent : Nat) :
    Option Nat :=
  (calculate_multiplication_complexity_checked base_length mod_length).bind fun mc =>
  (calculate_iteration_count_checked exp_length exponent).bind fun ic =>
  (checkedMul mc ic).map fun p =>
    maxU64 MIN_GAS_COST (p / 3)

/-! ## `Modexp::execute` -/

/-- The base-length header field: `BigUint::from_bytes_be(&input[0..32])`. -/
def baseLenOf (input : List Nat) : Nat := beDecode (listSlice input 0 32)

/-- The exponent-length header field: `BigUint::from_bytes_be(&input[32..64])`. -/
def expLenOf (input : List Nat) : Nat := beDecode (listSlice input 32 32)

/-- The modulus-length header field: `BigUint::from_bytes_be(&input[64..96])`. -/
def modLenOf (input : List Nat) : Nat := beDecode (listSlice input 64 32)

/-- The base operand, decoded from `input[96 .. 96 + base_len]`. -/
def baseOf (input : List Nat) : Nat :=
  beDecode (listSlice input 96 (baseLenOf input))

/-- The exponent operand, decoded from the `exp_len` bytes after the base. -/
def expOf (input : List Nat) : Nat :=
  beDecode (listSlice input (96 + baseLenOf input) (expLenOf input))

/-- The modulus operand, decoded from the `mod_len` bytes after the exponent. -/
def modOf (input : List Nat) : Nat :=
  beDecode (listSlice input (96 + baseLenOf input + expLenOf input) (modLenOf input))

/-- The output-formatting tail of `Modexp::execute`: encode the result `r`
big-endian and compare with `mod_len` (source lines 177-191). -/
def formatOutput (r mod_len gas_cost : Nat) : ExecOutcome :=
  if (toBytesBe r).length = mod_len then .ok (toBytesBe r) gas_cost
  else if (toBytesBe r).length < mod_len then
    .ok (List.replicate (mod_len - (toBytesBe r).length) 0 ++ toBytesBe r) gas_cost
  else .err (.Other "failed")

/-- `Modexp::execute`, translated clause by clause from the source.  The
`Context` argument is accepted and ignored, like the Rust `_context`.  The
`none` gas-limit case reaches `target_gas.expect("Gas limit not provided")`
and therefore panics (`crash`). -/
def modexpExecute (input : List Nat) (target_gas : Option Nat) (ctx : Context) :
    ExecOutcome :=
  if input.length < 96 then .err (.Other "input must contain at least 96 bytes")
  else if 1024 < baseLenOf input then .err (.Other "unreasonably large base length")
  else if 1024 < expLenOf input then .err (.Other "unreasonably large exponent length")
  else if 1024 < modLenOf input then .err (.Other "unreasonably large exponent length")
  else if input.length < baseLenOf input + expLenOf input + modLenOf input + 96 then
    .err (.Other "insufficient input size")
  else if baseLenOf input = 0 ∧ modLenOf input = 0 then
    formatOutput 0 (modLenOf input) MIN_GAS_COST
  else
    match target_gas with
    | none => .crash "Gas limit not provided"
    | some g =>
      if calculate_gas_cost (baseLenOf input) (expLenOf input) (modLenOf input)
          (expOf input) > g then
        .err ExitError.OutOfGas
      else
        formatOutput
          (if modOf input = 0 ∨ modOf input = 1 then 0
           else baseOf input ^ expOf input % modOf input)
          (modLenOf input)
          (calculate_gas_cost (baseLenOf input) (expLenOf input) (modLenOf input)
            (expOf input))

/-- `total_len` of an input buffer as the claims use it:
`96 + base_len + exp_len + mod_len` once the 96-byte header is present
(and just `96` for shorter buffers, which fail before any decoding). -/
def totalLenOf (input : List Nat) : Nat :=
  if input.length < 96 then 96
  else 96 + baseLenOf input + expLenOf input + modLenOf input

/-! ## Helper lemmas on byte encoding and decoding -/

theorem beDecode_foldl_from (l : List Nat) :
    ∀ a : Nat, l.foldl (fun a b => 256 * a + b) a
      = a * 256 ^ l.length + beDecode l := by
  induction l with
  | nil => intro a; simp [beDecode]
  | cons c t ih =>
    intro a
    show t.foldl (fun a b => 256 * a + b) (256 * a + c) = _
    rw [ih (256 * a + c)]
    have hc : beDecode (c :: t) = c * 256 ^ t.length + beDecode t := by
      show t.foldl (fun a b => 256 * a + b) (256 * 0 + c) = _
      rw [ih (256 * 0 + c)]; ring_nf
    rw [hc]
    simp [List.length_cons]
    ring

theorem beDecode_append_singleton (l : List Nat) (b : Nat) :
    beDecode (l ++ [b]) = 256 * beDecode l + b := by
  unfold beDecode
  rw [List.foldl_append]
  rfl

theorem beDecode_replicate_zero_append (k : Nat) (l : List Nat) :
    beDecode (List.replicate k 0 ++ l) = beDecode l := by
  unfold beDecode
  rw [List.foldl_append]
  have hz : (List.replicate k 0).foldl (fun a b => 256 * a + b) 0 = 0 := by
    induction k with
    | zero => rfl
    | succ n ih => simpa [List.replicate_succ] using ih
  rw [hz]

theorem beDecode_natToBytesBeAux (fuel : Nat) :
    ∀ n : Nat, n ≤ fuel → beDecode (natToBytesBeAux fuel n) = n := by
  induction fuel with
  | zero => intro n hn; interval_cases n; rfl
  | succ fuel ih =>
    intro n hn
    by_cases h0 : n = 0
    · simp [natToBytesBeAux, h0, beDecode]
    · have hdiv : n / 256 < n := Nat.div_lt_self (Nat.pos_of_ne_zero h0) (by norm_num)
      rw [natToBytesBeAux, if_neg h0, beDecode_append_singleton,
        ih (n / 256) (by omega)]
      omega

theorem beDecode_toBytesBe (n : Nat) : beDecode (toBytesBe n) = n := by
  unfold toBytesBe
  by_cases h : n = 0
  · simp [h]; rfl
  · rw [if_neg h]; exact beDecode_natToBytesBeAux n n le_rfl

theorem beDecode_lt (l : List Nat) (h : ∀ b ∈ l, b < 256) :
    beDecode l < 256 ^ l.length := by
  induction l with
  | nil => simp [beDecode]
  | cons c t ih =>
    have hc : beDecode (c :: t) = c * 256 ^ t.length + beDecode t := by
      show t.foldl (fun a b => 256 * a + b) (256 * 0 + c) = _
      rw [beDecode_foldl_from]; ring_nf
    have h1 : beDecode t < 256 ^ t.length := ih (fun b hb => h b (by simp [hb]))
    have h2 : c < 256 := h c (by simp)
    have h3 : c * 256 ^ t.length + beDecode t < (c + 1) * 256 ^ t.length := by
      have := Nat.add_lt_add_left h1 (c * 256 ^ t.length)
      calc c * 256 ^ t.length + beDecode t
      
      < c * 256 ^ t.length + 256 ^ t.length := this
      _ = (c + 1) * 256 ^ t.length := by ring
    calc beDecode (c :: t) = c * 256 ^ t.length + beDecode t := hc
    _ < (c + 1) * 256 ^ t.length := h3
    _ ≤ 256 * 256 ^ t.length := Nat.mul_le_mul_right _ (by omega)
    _ = 256 ^ (c :: t).length := by rw [List.length_cons]; ring

theorem listSlice_len_zero (l : List Nat) (s : Nat) : listSlice l s 0 = [] := by
  simp [listSlice]

theorem toBytesBe_zero : toBytesBe 0 = [0] := rfl

/-! ## Inversion lemmas for the output formatter -/

theorem formatOutput_ok_inv {r m g : Nat} {out : List Nat} {gas : Nat}
    (h : formatOutput r m g = .ok out gas) :
    gas = g ∧ out.length = m ∧ beDecode out = r ∧
      (r = 0 → out = List.replicate m 0) := by
  unfold formatOutput at h
  split_ifs at h with h1 h2
  · cases h
    refine ⟨rfl, h1, beDecode_toBytesBe r, ?_⟩
    rintro rfl
    rw [toBytesBe_zero] at h1 ⊢
    subst h1; rfl
  · cases h
    refine ⟨rfl, ?_, ?_, ?_⟩
    · simp; omega
    · rw [beDecode_replicate_zero_append, beDecode_toBytesBe]
    · rintro rfl
      rw [toBytesBe_zero] at h2
      show List.replicate (m - [0].length) 0 ++ [0] = _
      have hm : 1 ≤ m := by simpa using Nat.le_of_lt h2
      have : List.length [(0 : Nat)] = 1 := rfl
      rw [this, ← List.replicate_succ' (m - 1) 0]
      congr 1
      omega

theorem formatOutput_ne_outOfGas (r m g : Nat) :
    formatOutput r m g ≠ .err .OutOfGas := by
  unfold formatOutput
  split_ifs <;> simp

theorem formatOutput_err_inv {r m g : Nat} {e : ExitError}
    (h : formatOutput r m g = .err e) : e = .Other "failed" := by
  unfold formatOutput at h
  split_ifs at h <;> simp_all

theorem formatOutput_ne_crash (r m g : Nat) (s : String) :
    formatOutput r m g ≠ .crash s := by
  unfold formatOutput
  split_ifs <;> simp

theorem formatOutput_cases (r m g : Nat) :
    (∃ out, formatOutput r m g = .ok out g) ∨
      formatOutput r m g = .err (.Other "failed") := by
  unfold formatOutput
  split_ifs
  · exact Or.inl ⟨_, rfl⟩
  · exact Or.inl ⟨_, rfl⟩
  · exact Or.inr rfl

/-! ## Arithmetic helper lemmas -/

theorem maxU64_eq (a b : Nat) : maxU64 a b = max a b := by
  unfold maxU64; split_ifs <;> omega

theorem u64Mod_val : u64Mod = 18446744073709551616 := by norm_num [u64Mod]

theorem bitLengthAux_le : ∀ fuel n k : Nat, n ≤ fuel → n < 2 ^ k →
    bitLengthAux fuel n ≤ k := by
  intro fuel
  induction fuel with
  | zero =>
    intro n k hn _
    interval_cases n
    simp [bitLengthAux]
  | succ fuel ih =>
    intro n k hn hk
    by_cases h0 : n = 0
    · simp [bitLengthAux, h0]
    · rw [show bitLengthAux (fuel + 1) n
          = if n = 0 then 0 else bitLengthAux fuel (n / 2) + 1 from rfl,
        if_neg h0]
      have hk1 : 1 ≤ k := by
        by_contra hcon
        push_neg at hcon
        interval_cases k
        simp at hk
        exact h0 (by omega)
      have h2 : 2 ^ k = 2 * 2 ^ (k - 1) := by
        rw [← pow_succ']
        congr 1
        omega
      have hdiv : n / 2 < 2 ^ (k - 1) := by omega
      have := ih (n / 2) (k - 1) (by omega) hdiv
      omega

theorem bitLength_le {x k : Nat} (h : x < 2 ^ k) : bitLength x ≤ k :=
  bitLengthAux_le x x k le_rfl h

theorem bitLength_pos {x : Nat} (h : x ≠ 0) : 1 ≤ bitLength x := by
  unfold bitLength
  rcases Nat.exists_eq_succ_of_ne_zero h with ⟨m, rfl⟩
  rw [show bitLengthAux (m + 1) (m + 1)
      = if m + 1 = 0 then 0 else bitLengthAux m ((m + 1) / 2) + 1 from rfl,
    if_neg h]
  omega

theorem land_mask_eq_mod (x : Nat) : x &&& (2 ^ 256 - 1) = x % 2 ^ 256 := by
  apply Nat.eq_of_testBit_eq
  intro i
  rw [Nat.testBit_and, Nat.testBit_two_pow_sub_one, Nat.testBit_mod_two_pow]
  exact Bool.and_comm _ _

/-! ## The EIP-2565 price formula in exact (unbounded) arithmetic

This definition follows the words of the specification and of the claims
(multiplication complexity from the ceiling word count, iteration count from
the exponent's bit length, price `max(200, mc * ic / 3)`); it is the
reference the code's `u64` computation is compared against. -/

/-- Gas price as the spec states it, in exact arithmetic. -/
def gas_cost_spec (base_len exp_len mod_len exponent : Nat) : Nat :=
  let words := (max base_len mod_len + 7) / 8
  let mc := words * words
  let ecount : Nat :=
    if exp_len ≤ 32 ∧ exponent = 0 then 0
    else if exp_len ≤ 32 then bitLength exponent - 1
    else 8 * (exp_len - 32) + bitLength (exponent % 2 ^ 256) - 1
  max 200 (mc * max 1 ecount / 3)

theorem mult_complexity_eq {b m : Nat} (hb : b ≤ 1024) (hm : m ≤ 1024) :
    calculate_multiplication_complexity b m
      = ((max b m + 7) / 8) * ((max b m + 7) / 8) := by
  simp only [calculate_multiplication_complexity, maxU64_eq]
  have hwords : (if max b m % 8 > 0 then max b m / 8 + 1 else max b m / 8)
      = (max b m + 7) / 8 := by
    split_ifs <;> omega
  rw [hwords]
  have hw : (max b m + 7) / 8 ≤ 128 := by omega
  have hmul : (max b m + 7) / 8 * ((max b m + 7) / 8) ≤ 128 * 128 :=
    Nat.mul_le_mul hw hw
  exact Nat.mod_eq_of_lt (by rw [u64Mod_val]; omega)

theorem iteration_count_eq {e x : Nat} (he : e ≤ 1024) (hx : x < 2 ^ (8 * e)) :
    calculate_iteration_count e x
      = max 1 (if e ≤ 32 ∧ x = 0 then 0
          else if e ≤ 32 then bitLength x - 1
          else 8 * (e - 32) + bitLength (x % 2 ^ 256) - 1) := by
  have harg :
      (if e ≤ 32 ∧ x = 0 then (0 : Nat)
        else if e ≤ 32 then (bitLength x + (u64Mod - 1)) % u64Mod
        else ((8 * (e - 32)) % u64Mod
          + (bitLength (x &&& (2 ^ 256 - 1)) + (u64Mod - 1)) % u64Mod) % u64Mod)
      = (if e ≤ 32 ∧ x = 0 then 0
        else if e ≤ 32 then bitLength x - 1
        else 8 * (e - 32) + bitLength (x % 2 ^ 256) - 1) := by
    split_ifs with h0 h32
    · rfl
    · -- e ≤ 32, x ≠ 0
      have hxn : x ≠ 0 := fun hx0 => h0 ⟨h32, hx0⟩
      have h1 : 1 ≤ bitLength x := bitLength_pos hxn
      have h2 : bitLength x ≤ 8 * e := bitLength_le hx
      rw [u64Mod_val]
      omega
    · -- e > 32
      rw [land_mask_eq_mod]
      have hd : 8 * (e - 32) ≤ 7936 := by omega
      have hd1 : 8 ≤ 8 * (e - 32) := by omega
      have hB : bitLength (x % 2 ^ 256) ≤ 256 :=
        bitLength_le (Nat.mod_lt _ (Nat.pos_pow_of_pos 256 (by norm_num)))
      rw [u64Mod_val]
      omega
  simp only [calculate_iteration_count, maxU64_eq]
  rw [harg, Nat.max_comm]

theorem iteration_count_spec_le {e x : Nat} (he : e ≤ 1024) (hx : x < 2 ^ (8 * e)) :
    max 1 (if e ≤ 32 ∧ x = 0 then 0
        else if e ≤ 32 then bitLength x - 1
        else 8 * (e - 32) + bitLength (x % 2 ^ 256) - 1) ≤ 8191 := by
  have hB : bitLength (x % 2 ^ 256) ≤ 256 :=
    bitLength_le (Nat.mod_lt _ (Nat.pos_pow_of_pos 256 (by norm_num)))
  split_ifs with h0 h32
  · omega
  · have h2 : bitLength x ≤ 8 * e := bitLength_le hx
    omega
  · omega

theorem gas_cost_eq_spec {b e m x : Nat} (hb : b ≤ 1024) (he : e ≤ 1024)
    (hm : m ≤ 1024) (hx : x < 2 ^ (8 * e)) :
    calculate_gas_cost b e m x = gas_cost_spec b e m x := by
  simp only [calculate_gas_cost, gas_cost_spec]
  rw [mult_complexity_eq hb hm, iteration_count_eq he hx, maxU64_eq]
  have hw : (max b m + 7) / 8 ≤ 128 := by omega
  have hmc : (max b m + 7) / 8 * ((max b m + 7) / 8) ≤ 128 * 128 :=
    Nat.mul_le_mul hw hw
  have hic := iteration_count_spec_le he hx
  have hprod : (max b m + 7) / 8 * ((max b m + 7) / 8)
      * max 1 (if e ≤ 32 ∧ x = 0 then 0
          else if e ≤ 32 then bitLength x - 1
          else 8 * (e - 32) + bitLength (x % 2 ^ 256) - 1) ≤ 128 * 128 * 8191 :=
    Nat.mul_le_mul hmc hic
  rw [Nat.mod_eq_of_lt (by rw [u64Mod_val]; omega)]
  rw [Nat.max_comm 1 _]
  rfl

/-! ## Slice lemmas: everything `execute` reads lies in the first
`total_len` bytes -/

theorem listSlice_eq_of_take_eq {l1 l2 : List Nat} {T s n : Nat} (hsn : s + n ≤ T)
    (h : l1.take T = l2.take T) : listSlice l1 s n = listSlice l2 s n := by
  have key : ∀ l : List Nat, listSlice l s n = ((l.take T).drop s).take n := by
    intro l
    unfold listSlice
    rw [List.take_drop]
    have h2 : List.take (s + n) l = List.take (s + n) (List.take T l) := by
      rw [List.take_take, Nat.min_eq_left hsn]
    rw [h2, ← List.take_drop]
  rw [key l1, key l2, h]

theorem length_take_min {l1 l2 : List Nat} {T : Nat} (h : l1.take T = l2.take T) :
    min T l1.length = min T l2.length := by
  have := congrArg List.length h
  simpa using this

theorem totalLenOf_ge (input : List Nat) : 96 ≤ totalLenOf input := by
  unfold totalLenOf; split_ifs <;> omega

/-- Claim C9: the result of `execute` (success or failure kind, output bytes
and gas) depends only on the gas limit and on the first
`total_len = 96 + base_len + exp_len + mod_len` bytes of the input; the
execution-context argument and any trailing input bytes have no effect. -/
theorem C9_context_and_trailing_bytes_irrelevant (i1 i2 : List Nat)
    (tg : Option Nat) (c1 c2 : Context)
    (h : i1.take (totalLenOf i1) = i2.take (totalLenOf i1)) :
    modexpExecute i1 tg c1 = modexpExecute i2 tg c2 := by
  have hmin := length_take_min h
  by_cases h96 : i1.length < 96
  · have hT : totalLenOf i1 = 96 := by unfold totalLenOf; rw [if_pos h96]
    rw [hT] at h hmin
    have h12 : i1 = i2 := by
      have hlen2 : i2.length = i1.length := by omega
      have t1 : i1.take 96 = i1 := List.take_of_length_le (by omega)
      have t2 : i2.take 96 = i2 := List.take_of_length_le (by omega)
      rw [t1, t2] at h
      exact h
    rw [h12]
    rfl
  · have hT : totalLenOf i1 = 96 + baseLenOf i1 + expLenOf i1 + modLenOf i1 := by
      unfold totalLenOf; rw [if_neg h96]
    have hTge : 96 ≤ totalLenOf i1 := totalLenOf_ge i1
    have hb : baseLenOf i1 = baseLenOf i2 := by
      unfold baseLenOf
      exact congrArg beDecode (listSlice_eq_of_take_eq (by omega) h)
    have he : expLenOf i1 = expLenOf i2 := by
      unfold expLenOf
      exact congrArg beDecode (listSlice_eq_of_take_eq (by omega) h)
    have hm : modLenOf i1 = modLenOf i2 := by
      unfold modLenOf
      exact congrArg beDecode (listSlice_eq_of_take_eq (by omega) h)
    have hlen2 : ¬ i2.length < 96 := by omega
    by_cases hins : i1.length < baseLenOf i1 + expLenOf i1 + modLenOf i1 + 96
    · have h12 : i1 = i2 := by
        have hlt : i1.length < totalLenOf i1 := by omega
        have t1 : i1.take (totalLenOf i1) = i1 := List.take_of_length_le (by omega)
        have hlen2' : i2.length = i1.length := by omega
        have t2 : i2.take (totalLenOf i1) = i2 := List.take_of_length_le (by omega)
        rw [t1, t2] at h
        exact h
      rw [h12]
      rfl
    · have hbaseop : baseOf i1 = baseOf i2 := by
        unfold baseOf
        rw [← hb]
        exact congrArg beDecode (listSlice_eq_of_take_eq (by omega) h)
      have hexpop : expOf i1 = expOf i2 := by
        unfold expOf
        rw [← hb, ← he]
        exact congrArg beDecode (listSlice_eq_of_take_eq (by omega) h)
      have hmodop : modOf i1 = modOf i2 := by
        unfold modOf
        rw [← hb, ← he, ← hm]
        exact congrArg beDecode (listSlice_eq_of_take_eq (by omega) h)
      have hins2 : ¬ i2.length < baseLenOf i1 + expLenOf i1 + modLenOf i1 + 96 := by
        omega
      unfold modexpExecute
      rw [if_neg h96, if_neg hlen2, ← hb, ← he, ← hm, ← hbaseop, ← hexpop, ← hmodop,
        if_neg hins, if_neg hins2]

/-! ## Branch equations for `modexpExecute` -/

theorem execute_tooShort_eq (input : List Nat) (tg : Option Nat) (c : Context)
    (h96 : input.length < 96) :
    modexpExecute input tg c = .err (.Other "input must contain at least 96 bytes") := by
  unfold modexpExecute
  rw [if_pos h96]

theorem execute_baseLen_err_eq (input : List Nat) (tg : Option Nat) (c : Context)
    (h96 : ¬ input.length < 96) (hbl : 1024 < baseLenOf input) :
    modexpExecute input tg c = .err (.Other "unreasonably large base length") := by
  unfold modexpExecute
  rw [if_neg h96, if_pos hbl]

theorem execute_expLen_err_eq (input : List Nat) (tg : Option Nat) (c : Context)
    (h96 : ¬ input.length < 96) (hbl : ¬ 1024 < baseLenOf input)
    (hel : 1024 < expLenOf input) :
    modexpExecute input tg c = .err (.Other "unreasonably large exponent length") := by
  unfold modexpExecute
  rw [if_neg h96, if_neg hbl, if_pos hel]

theorem execute_modLen_err_eq (input : List Nat) (tg : Option Nat) (c : Context)
    (h96 : ¬ input.length < 96) (hbl : ¬ 1024 < baseLenOf input)
    (hel : ¬ 1024 < expLenOf input) (hml : 1024 < modLenOf input) :
    modexpExecute input tg c = .err (.Other "unreasonably large exponent length") := by
  unfold modexpExecute
  rw [if_neg h96, if_neg hbl, if_neg hel, if_pos hml]

theorem execute_insufficient_eq (input : List Nat) (tg : Option Nat) (c : Context)
    (h96 : ¬ input.length < 96) (hbl : ¬ 1024 < baseLenOf input)
    (hel : ¬ 1024 < expLenOf input) (hml : ¬ 1024 < modLenOf input)
    (htot : input.length < baseLenOf input + expLenOf input + modLenOf input + 96) :
    modexpExecute input tg c = .err (.Other "insufficient input size") := by
  unfold modexpExecute
  rw [if_neg h96, if_neg hbl, if_neg hel, if_neg hml, if_pos htot]

theorem execute_trivial_eq (input : List Nat) (tg : Option Nat) (c : Context)
    (h96 : ¬ input.length < 96) (hbl : ¬ 1024 < baseLenOf input)
    (hel : ¬ 1024 < expLenOf input) (hml : ¬ 1024 < modLenOf input)
    (htot : ¬ input.length < baseLenOf input + expLenOf input + modLenOf input + 96)
    (hz : baseLenOf input = 0 ∧ modLenOf input = 0) :
    modexpExecute input tg c = formatOutput 0 (modLenOf input) MIN_GAS_COST := by
  unfold modexpExecute
  rw [if_neg h96, if_neg hbl, if_neg hel, if_neg hml, if_neg htot, if_pos hz]

theorem execute_main_none_eq (input : List Nat) (c : Context)
    (h96 : ¬ input.length < 96) (hbl : ¬ 1024 < baseLenOf input)
    (hel : ¬ 1024 < expLenOf input) (hml : ¬ 1024 < modLenOf input)
    (htot : ¬ input.length < baseLenOf input + expLenOf input + modLenOf input + 96)
    (hz : ¬ (baseLenOf input = 0 ∧ modLenOf input = 0)) :
    modexpExecute input none c = .crash "Gas limit not provided" := by
  unfold modexpExecute
  rw [if_neg h96, if_neg hbl, if_neg hel, if_neg hml, if_neg htot, if_neg hz]

theorem execute_main_some_eq (input : List Nat) (g : Nat) (c : Context)
    (h96 : ¬ input.length < 96) (hbl : ¬ 1024 < baseLenOf input)
    (hel : ¬ 1024 < expLenOf input) (hml : ¬ 1024 < modLenOf input)
    (htot : ¬ input.length < baseLenOf input + expLenOf input + modLenOf input + 96)
    (hz : ¬ (baseLenOf input = 0 ∧ modLenOf input = 0)) :
    modexpExecute input (some g) c =
      if calculate_gas_cost (baseLenOf input) (expLenOf input) (modLenOf input)
          (expOf input) > g then .err ExitError.OutOfGas
      else formatOutput
        (if modOf input = 0 ∨ modOf input = 1 then 0
         else baseOf input ^ expOf input % modOf input)
        (modLenOf input)
        (calculate_gas_cost (baseLenOf input) (expLenOf input) (modLenOf input)
          (expOf input)) := by
  unfold modexpExecute
  rw [if_neg h96, if_neg hbl, if_neg hel, if_neg hml, if_neg htot, if_neg hz]

/-- Claim C1: every successful run of `execute` returns an output of length
exactly `mod_len` whose big-endian decoding is `base ^ exponent % modulus`,
the result being `0` when the modulus value is `0` or `1` (in which case the
output is `mod_len` zero bytes). -/
theorem C1_success_output_shape (input : List Nat) (tg : Option Nat) (c : Context)
    (out : List Nat) (gas : Nat)
    (hexec : modexpExecute input tg c = .ok out gas) :
    out.length = modLenOf input ∧
    beDecode out = (if modOf input = 0 ∨ modOf input = 1 then 0
      else baseOf input ^ expOf input % modOf input) ∧
    ((modOf input = 0 ∨ modOf input = 1) → out = List.replicate (modLenOf input) 0) := by
  by_cases h96 : input.length < 96
  · rw [execute_tooShort_eq input tg c h96] at hexec
    exact absurd hexec (by simp)
  by_cases hbl : 1024 < baseLenOf input
  · rw [execute_baseLen_err_eq input tg c h96 hbl] at hexec
    exact absurd hexec (by simp)
  by_cases hel : 1024 < expLenOf input
  · rw [execute_expLen_err_eq input tg c h96 hbl hel] at hexec
    exact absurd hexec (by simp)
  by_cases hml : 1024 < modLenOf input
  · rw [execute_modLen_err_eq input tg c h96 hbl hel hml] at hexec
    exact absurd hexec (by simp)
  by_cases htot : input.length < baseLenOf input + expLenOf input + modLenOf input + 96
  · rw [execute_insufficient_eq input tg c h96 hbl hel hml htot] at hexec
    exact absurd hexec (by simp)
  by_cases hz : baseLenOf input = 0 ∧ modLenOf input = 0
  · rw [execute_trivial_eq input tg c h96 hbl hel hml htot hz] at hexec
    obtain ⟨-, hlen, hdec, hrep⟩ := formatOutput_ok_inv hexec
    have hmod : modOf input = 0 := by
      unfold modOf
      rw [hz.2, listSlice_len_zero]
      rfl
    exact ⟨hlen, by rw [hmod]; simpa using hdec, fun _ => hrep rfl⟩
  rcases tg with - | g
  · rw [execute_main_none_eq input c h96 hbl hel hml htot hz] at hexec
    exact absurd hexec (by simp)
  rw [execute_main_some_eq input g c h96 hbl hel hml htot hz] at hexec
  by_cases hgas : calculate_gas_cost (baseLenOf input) (expLenOf input)
      (modLenOf input) (expOf input) > g
  · rw [if_pos hgas] at hexec
    exact absurd hexec (by simp)
  rw [if_neg hgas] at hexec
  by_cases hmodc : modOf input = 0 ∨ modOf input = 1
  · rw [if_pos hmodc] at hexec
    obtain ⟨-, hlen, hdec, hrep⟩ := formatOutput_ok_inv hexec
    exact ⟨hlen, by rw [if_pos hmodc]; exact hdec, fun _ => hrep rfl⟩
  · rw [if_neg hmodc] at hexec
    obtain ⟨-, hlen, hdec, hrep⟩ := formatOutput_ok_inv hexec
    exact ⟨hlen, by rw [if_neg hmodc]; exact hdec, fun hcond => absurd hcond hmodc⟩

/-- Claim C10: even when `base_len = 0` and `mod_len = 0`, the
buffer-completeness check runs first: a buffer shorter than `96 + exp_len`
fails with the insufficient-input error. -/
theorem C10_insufficient_before_trivial_shortcut (input : List Nat)
    (tg : Option Nat) (c : Context)
    (h96 : 96 ≤ input.length) (hb : baseLenOf input = 0)
    (he : expLenOf input ≤ 1024) (hm : modLenOf input = 0)
    (hshort : input.length < 96 + expLenOf input) :
    modexpExecute input tg c = .err (.Other "insufficient input size") :=
  execute_insufficient_eq input tg c (by omega) (by omega) (by omega) (by omega)
    (by omega)

/-- Claim C6 (amended): on an input that parses with `base_len` and
`mod_len` not both zero, a missing gas limit makes `execute` panic at
`target_gas.expect("Gas limit not provided")` — a crash, not a typed
error return. -/
theorem C6_missing_gas_limit_crashes (input : List Nat) (c : Context)
    (h96 : 96 ≤ input.length) (hb : baseLenOf input ≤ 1024)
    (he : expLenOf input ≤ 1024) (hm : modLenOf input ≤ 1024)
    (htot : baseLenOf input + expLenOf input + modLenOf input + 96 ≤ input.length)
    (hnz : ¬ (baseLenOf input = 0 ∧ modLenOf input = 0)) :
    modexpExecute input none c = .crash "Gas limit not provided" :=
  execute_main_none_eq input c (by omega) (by omega) (by omega) (by omega)
    (by omega) hnz

/-- Claim C7: with a supplied gas limit and a parsed, non-trivial input,
`execute` fails with `OutOfGas` exactly when the computed gas cost exceeds
the limit (the bound depends only on the lengths and the exponent bytes,
never on the modulus bytes), and on success the gas used is within the
limit. -/
theorem C7_out_of_gas_iff (input : List Nat) (g : Nat) (c : Context)
    (h96 : 96 ≤ input.length) (hb : baseLenOf input ≤ 1024)
    (he : expLenOf input ≤ 1024) (hm : modLenOf input ≤ 1024)
    (htot : baseLenOf input + expLenOf input + modLenOf input + 96 ≤ input.length)
    (hnz : ¬ (baseLenOf input = 0 ∧ modLenOf input = 0)) :
    (modexpExecute input (some g) c = .err ExitError.OutOfGas ↔
      g < calculate_gas_cost (baseLenOf input) (expLenOf input) (modLenOf input)
        (expOf input)) ∧
    (∀ out gas, modexpExecute input (some g) c = .ok out gas → gas ≤ g) := by
  have hunf := execute_main_some_eq input g c (by omega) (by omega) (by omega)
    (by omega) (by omega) hnz
  constructor
  · rw [hunf]
    by_cases hgas : calculate_gas_cost (baseLenOf input) (expLenOf input)
        (modLenOf input) (expOf input) > g
    · rw [if_pos hgas]
      exact iff_of_true rfl hgas
    · rw [if_neg hgas]
      exact iff_of_false (formatOutput_ne_outOfGas _ _ _) hgas
  · intro out gas hok
    rw [hunf] at hok
    by_cases hgas : calculate_gas_cost (baseLenOf input) (expLenOf input)
        (modLenOf input) (expOf input) > g
    · rw [if_pos hgas] at hok
      exact absurd hok (by simp)
    · rw [if_neg hgas] at hok
      have := (formatOutput_ok_inv hok).1
      omega

/-- The outcome is one of the two length-cap rejection errors of the source
(the base message, or the message shared by the exponent and modulus
checks). -/
def isLengthTooLargeOutcome (o : ExecOutcome) : Prop :=
  o = .err (.Other "unreasonably large base length") ∨
  o = .err (.Other "unreasonably large exponent length")

theorem execute_post_parse_shapes (input : List Nat) (tg : Option Nat) (c : Context)
    (h96 : ¬ input.length < 96) (hbl : ¬ 1024 < baseLenOf input)
    (hel : ¬ 1024 < expLenOf input) (hml : ¬ 1024 < modLenOf input)
    (htot : ¬ input.length < baseLenOf input + expLenOf input + modLenOf input + 96) :
    (∃ out gas, modexpExecute input tg c = .ok out gas) ∨
    modexpExecute input tg c = .err (.Other "failed") ∨
    modexpExecute input tg c = .err ExitError.OutOfGas ∨
    modexpExecute input tg c = .crash "Gas limit not provided" := by
  by_cases hz : baseLenOf input = 0 ∧ modLenOf input = 0
  · rw [execute_trivial_eq input tg c h96 hbl hel hml htot hz]
    rcases formatOutput_cases 0 (modLenOf input) MIN_GAS_COST with ⟨out, hout⟩ | hout
    · exact Or.inl ⟨out, _, hout⟩
    · exact Or.inr (Or.inl hout)
  · rcases tg with - | g
    · exact Or.inr (Or.inr (Or.inr
        (execute_main_none_eq input c h96 hbl hel hml htot hz)))
    · rw [execute_main_some_eq input g c h96 hbl hel hml htot hz]
      by_cases hgas : calculate_gas_cost (baseLenOf input) (expLenOf input)
          (modLenOf input) (expOf input) > g
      · rw [if_pos hgas]
        exact Or.inr (Or.inr (Or.inl rfl))
      · rw [if_neg hgas]
        rcases formatOutput_cases _ _ _ with ⟨out, hout⟩ | hout
        · exact Or.inl ⟨out, _, hout⟩
        · exact Or.inr (Or.inl hout)

/-- Claim C5: `execute` fails with the too-short error iff the buffer is
shorter than 96 bytes; otherwise with a length-cap error iff one of the
three header fields exceeds 1024; otherwise with the insufficient-input
error iff the buffer is shorter than `96 + base_len + exp_len + mod_len` —
in exactly this order. -/
theorem C5_parse_error_characterization (input : List Nat) (tg : Option Nat)
    (c : Context) :
    (modexpExecute input tg c = .err (.Other "input must contain at least 96 bytes")
      ↔ input.length < 96) ∧
    (isLengthTooLargeOutcome (modexpExecute input tg c)
      ↔ 96 ≤ input.length ∧ (1024 < baseLenOf input ∨ 1024 < expLenOf input ∨
          1024 < modLenOf input)) ∧
    (modexpExecute input tg c = .err (.Other "insufficient input size")
      ↔ 96 ≤ input.length ∧ baseLenOf input ≤ 1024 ∧ expLenOf input ≤ 1024 ∧
          modLenOf input ≤ 1024 ∧
          input.length < 96 + baseLenOf input + expLenOf input + modLenOf input) := by
  by_cases h96 : input.length < 96
  · rw [execute_tooShort_eq input tg c h96]
    refine ⟨iff_of_true rfl h96, iff_of_false ?_ (by omega),
      iff_of_false (by decide) (by omega)⟩
    rintro (hc | hc) <;> exact absurd hc (by decide)
  by_cases hbl : 1024 < baseLenOf input
  · rw [execute_baseLen_err_eq input tg c h96 hbl]
    exact ⟨iff_of_false (by decide) h96,
      iff_of_true (Or.inl rfl) ⟨by omega, Or.inl hbl⟩,
      iff_of_false (by decide) (by omega)⟩
  by_cases hel : 1024 < expLenOf input
  · rw [execute_expLen_err_eq input tg c h96 hbl hel]
    exact ⟨iff_of_false (by decide) h96,
      iff_of_true (Or.inr rfl) ⟨by omega, Or.inr (Or.inl hel)⟩,
      iff_of_false (by decide) (by omega)⟩
  by_cases hml : 1024 < modLenOf input
  · rw [execute_modLen_err_eq input tg c h96 hbl hel hml]
    exact ⟨iff_of_false (by decide) h96,
      iff_of_true (Or.inr rfl) ⟨by omega, Or.inr (Or.inr hml)⟩,
      iff_of_false (by decide) (by omega)⟩
  by_cases htot : input.length < baseLenOf input + expLenOf input + modLenOf input + 96
  · rw [execute_insufficient_eq input tg c h96 hbl hel hml htot]
    refine ⟨iff_of_false (by decide) h96, iff_of_false ?_ (by omega),
      iff_of_true rfl ⟨by omega, by omega, by omega, by omega, by omega⟩⟩
    rintro (hc | hc) <;> exact absurd hc (by decide)
  rcases execute_post_parse_shapes input tg c h96 hbl hel hml htot with
    ⟨out, gas, hout⟩ | hout | hout | hout <;> rw [hout]
  · refine ⟨iff_of_false (by simp) h96, iff_of_false ?_ (by omega),
      iff_of_false (by simp) (by omega)⟩
    rintro (hc | hc) <;> simp at hc
  · refine ⟨iff_of_false (by decide) h96, iff_of_false ?_ (by omega),
      iff_of_false (by decide) (by omega)⟩
    rintro (hc | hc) <;> exact absurd hc (by decide)
  · refine ⟨iff_of_false (by decide) h96, iff_of_false ?_ (by omega),
      iff_of_false (by decide) (by omega)⟩
    rintro (hc | hc) <;> exact absurd hc (by decide)
  · refine ⟨iff_of_false (by decide) h96, iff_of_false ?_ (by omega),
      iff_of_false (by decide) (by omega)⟩
    rintro (hc | hc) <;> exact absurd hc (by decide)

/-- Claim C2: for parser-bounded arguments (lengths at most 1024, exponent
representable in `exp_len` bytes, base and modulus lengths not both zero),
the code's `u64` gas computation equals the spec formula
`max(200, mc * ic / 3)` with `mc = ceil(max(base_len, mod_len)/8)^2` and
`ic = max(1, e)` as the claim defines `e`. -/
theorem C2_gas_cost_formula (b e m x : Nat) (hb : b ≤ 1024) (he : e ≤ 1024)
    (hm : m ≤ 1024) (hnz : ¬ (b = 0 ∧ m = 0)) (hx : x < 2 ^ (8 * e)) :
    calculate_gas_cost b e m x = gas_cost_spec b e m x :=
  gas_cost_eq_spec hb he hm hx

/-- Claim C8: with the exponent data fixed and all lengths within the
parser's 1024 cap, the gas cost never decreases when `base_len` or
`mod_len` grows. -/
theorem C8_gas_cost_monotone (b1 b2 m1 m2 e x : Nat) (hb12 : b1 ≤ b2)
    (hb : b2 ≤ 1024) (hm12 : m1 ≤ m2) (hm : m2 ≤ 1024) (he : e ≤ 1024)
    (hx : x < 2 ^ (8 * e)) :
    calculate_gas_cost b1 e m1 x ≤ calculate_gas_cost b2 e m2 x := by
  rw [gas_cost_eq_spec (by omega) he (by omega) hx, gas_cost_eq_spec hb he hm hx]
  simp only [gas_cost_spec]
  apply max_le_max le_rfl
  apply Nat.div_le_div_right
  have hw : (max b1 m1 + 7) / 8 ≤ (max b2 m2 + 7) / 8 :=
    Nat.div_le_div_right (by omega)
  exact Nat.mul_le_mul (Nat.mul_le_mul hw hw) le_rfl

/-! ## Claim C4: overflow behaviour of the gas computation -/

theorem mult_complexity_le {b m : Nat} (hb : b ≤ 1024) (hm : m ≤ 1024) :
    calculate_multiplication_complexity b m ≤ 16384 := by
  rw [mult_complexity_eq hb hm]
  have hw : (max b m + 7) / 8 ≤ 128 := by omega
  calc (max b m + 7) / 8 * ((max b m + 7) / 8) ≤ 128 * 128 := Nat.mul_le_mul hw hw
  _ = 16384 := by norm_num

theorem iteration_count_le {e x : Nat} (he : e ≤ 1024) (hx : x < 2 ^ (8 * e)) :
    calculate_iteration_count e x ≤ 8191 := by
  rw [iteration_count_eq he hx]
  exact iteration_count_spec_le he hx

theorem mult_complexity_checked_eq {b m : Nat} (hb : b ≤ 1024) (hm : m ≤ 1024) :
    calculate_multiplication_complexity_checked b m
      = some (calculate_multiplication_complexity b m) := by
  simp only [calculate_multiplication_complexity_checked,
    calculate_multiplication_complexity, maxU64_eq, checkedAdd, checkedMul]
  have hw8 : max b m / 8 ≤ 128 := by omega
  by_cases h8 : max b m % 8 > 0
  · rw [if_pos h8, if_pos h8, if_pos (show max b m / 8 + 1 < u64Mod by
      rw [u64Mod_val]; omega)]
    simp only [Option.bind]
    have hmul : (max b m / 8 + 1) * (max b m / 8 + 1) < u64Mod := by
      have := Nat.mul_le_mul (show max b m / 8 + 1 ≤ 129 by omega)
        (show max b m / 8 + 1 ≤ 129 by omega)
      rw [u64Mod_val]
      omega
    rw [if_pos hmul, Nat.mod_eq_of_lt hmul]
  · rw [if_neg h8, if_neg h8]
    simp only [Option.bind]
    have hmul : max b m / 8 * (max b m / 8) < u64Mod := by
      have := Nat.mul_le_mul hw8 hw8
      rw [u64Mod_val]
      omega
    rw [if_pos hmul, Nat.mod_eq_of_lt hmul]

theorem iteration_count_checked_eq {e x : Nat} (he : e ≤ 1024)
    (hx : x < 2 ^ (8 * e)) (hlow : 32 < e → x % 2 ^ 256 ≠ 0) :
    calculate_iteration_count_checked e x
      = some (calculate_iteration_count e x) := by
  simp only [calculate_iteration_count_checked, calculate_iteration_count,
    checkedSub, checkedMul, checkedAdd]
  by_cases h0 : e ≤ 32 ∧ x = 0
  · rw [if_pos h0, if_pos h0]
    rfl
  by_cases h32 : e ≤ 32
  · rw [if_neg h0, if_neg h0, if_pos h32, if_pos h32]
    have hxn : x ≠ 0 := fun hx0 => h0 ⟨h32, hx0⟩
    have h1 : 1 ≤ bitLength x := bitLength_pos hxn
    have h2 : bitLength x ≤ 8 * e := bitLength_le hx
    rw [if_pos h1]
    simp only [Option.map]
    have : (bitLength x + (u64Mod - 1)) % u64Mod = bitLength x - 1 := by
      rw [u64Mod_val]
      omega
    rw [this]
  · rw [if_neg h0, if_neg h0, if_neg h32, if_neg h32]
    have hxlow : x % 2 ^ 256 ≠ 0 := hlow (by omega)
    have hB1 : 1 ≤ bitLength (x % 2 ^ 256) := by
      rw [← land_mask_eq_mod]
      rw [← land_mask_eq_mod] at hxlow
      exact bitLength_pos hxlow
    have hB : bitLength (x % 2 ^ 256) ≤ 256 :=
      bitLength_le (Nat.mod_lt _ (Nat.pos_pow_of_pos 256 (by norm_num)))
    rw [land_mask_eq_mod]
    have hd : 8 * (e - 32) ≤ 7936 := by omega
    rw [if_pos (show 32 ≤ e by omega)]
    simp only [Option.bind]
    rw [if_pos (show 8 * (e - 32) < u64Mod by rw [u64Mod_val]; omega)]
    simp only [Option.bind]
    rw [if_pos hB1]
    simp only [Option.bind]
    rw [if_pos (show 8 * (e - 32) + (bitLength (x % 2 ^ 256) - 1) < u64Mod by
      rw [u64Mod_val]; omega)]
    simp only [Option.map]
    have harg : (8 * (e - 32) % u64Mod
        + (bitLength (x % 2 ^ 256) + (u64Mod - 1)) % u64Mod) % u64Mod
        = 8 * (e - 32) + (bitLength (x % 2 ^ 256) - 1) := by
      rw [u64Mod_val]
      omega
    rw [harg]

/-- Claim C4 (amended): the checked gas computation succeeds — no `u64`
addition, subtraction or multiplication leaves the 64-bit range — for every
parser-bounded input, except when `exp_len > 32` and the exponent's low 256
bits are all zero (there the subtraction `bits - 1` underflows). -/
theorem C4_checked_gas_total_unless_masked_zero (b e m x : Nat)
    (hb : b ≤ 1024) (he : e ≤ 1024) (hm : m ≤ 1024) (hx : x < 2 ^ (8 * e))
    (hlow : 32 < e → x % 2 ^ 256 ≠ 0) :
    calculate_gas_cost_checked b e m x = some (calculate_gas_cost b e m x) := by
  simp only [calculate_gas_cost_checked, calculate_gas_cost]
  rw [mult_complexity_checked_eq hb hm, iteration_count_checked_eq he hx hlow]
  simp only [Option.bind]
  have hmc := mult_complexity_le hb hm
  have hic := iteration_count_le he hx
  have hmul : calculate_multiplication_complexity b m
      * calculate_iteration_count e x < u64Mod := by
    have := Nat.mul_le_mul hmc hic
    rw [u64Mod_val]
    omega
  rw [checkedMul, if_pos hmul]
  simp only [Option.map]
  rw [Nat.mod_eq_of_lt hmul]

/-- Claim C4 counterexample: at `base_len = 1`, `exp_len = 33`,
`mod_len = 1`, `exponent = 2 ^ 256` (all inside the parser's bounds and
representable in 33 exponent bytes), the masked exponent is zero, so the
`u64` subtraction `(exponent & (2^256 - 1)).bits() - 1` underflows and the
checked computation aborts. -/
theorem C4_counterexample_underflow :
    ((1 : Nat) ≤ 1024 ∧ (33 : Nat) ≤ 1024 ∧ (2 ^ 256 : Nat) < 2 ^ (8 * 33)) ∧
    calculate_gas_cost_checked 1 33 1 (2 ^ 256) = none := by
  refine ⟨⟨by norm_num, by norm_num, by norm_num⟩, ?_⟩
  decide

/-! ## Concrete inputs for evaluations and witnesses -/

/-- The source's `test_simple_inputs` vector: `base_len = exp_len =
mod_len = 1`, base 3, exponent 5, modulus 7. -/
def sampleInput357 : List Nat :=
  List.replicate 31 0 ++ [1] ++ (List.replicate 31 0 ++ [1]) ++
    (List.replicate 31 0 ++ [1]) ++ [3, 5, 7]

/-- A 96-byte buffer declaring `base_len = mod_len = 0`, `exp_len = 5`,
with the five declared exponent bytes absent. -/
def truncatedTrivialInput : List Nat :=
  List.replicate 63 0 ++ [5] ++ List.replicate 32 0

/-- An arbitrary execution context (all fields zero). -/
def ctx0 : Context := ⟨0, 0, 0⟩

/-- Claim C3 (refuting evaluation): on the all-zero 96-byte header
(`base_len = exp_len = mod_len = 0`) with ample gas, the trivial shortcut
produces the value `0`, but `to_bytes_be(0)` is the single byte `[0]`,
whose length `1` exceeds `mod_len = 0`, so `execute` returns
`Err(Other("failed"))` — not the empty success with gas 200 that the claim
(and EIP-198) requires. -/
theorem C3_zero_lengths_return_failed :
    modexpExecute (List.replicate 96 0) (some 1000000) ctx0
      = .err (.Other "failed") := by
  decide

/-- Claim C6 counterexample: on a fully parsed input with nonzero lengths
(base 3, exponent 5, modulus 7) and an absent gas limit, `execute` returns
no typed error at all — the outcome is the `expect` panic. -/
theorem C6_counterexample_no_typed_error :
    isErr (modexpExecute sampleInput357 none ctx0) = false ∧
    modexpExecute sampleInput357 none ctx0 = .crash "Gas limit not provided" := by
  exact ⟨by decide, by decide⟩

/-! ## Witnesses: each hypothesis-bearing claim theorem applied at a
concrete input -/

/-- Witness for C1 at the `3 ^ 5 % 7` vector, a successful run returning
the single byte `[5]` with gas 200. -/
theorem C1_witness :
    ([5] : List Nat).length = modLenOf sampleInput357 ∧
    beDecode [5] = (if modOf sampleInput357 = 0 ∨ modOf sampleInput357 = 1 then 0
      else baseOf sampleInput357 ^ expOf sampleInput357 % modOf sampleInput357) ∧
    ((modOf sampleInput357 = 0 ∨ modOf sampleInput357 = 1) →
      [5] = List.replicate (modLenOf sampleInput357) 0) :=
  C1_success_output_shape sampleInput357 (some 100000) ctx0 [5] 200 (by decide)

/-- Witness for C2 at `base_len = exp_len = mod_len = 1`, exponent 5. -/
theorem C2_witness : calculate_gas_cost 1 1 1 5 = gas_cost_spec 1 1 1 5 :=
  C2_gas_cost_formula 1 1 1 5 (by decide) (by decide) (by decide) (by decide)
    (by decide)

/-- Witness for C4's amended theorem at `exp_len = 33` with exponent 1
(low 256 bits nonzero): the checked computation succeeds. -/
theorem C4_witness :
    calculate_gas_cost_checked 1 33 1 1 = some (calculate_gas_cost 1 33 1 1) :=
  C4_checked_gas_total_unless_masked_zero 1 33 1 1 (by decide) (by decide)
    (by decide) (by decide) (by decide)

/-- Witness for C5 on the empty buffer: the too-short arm of the
characterization yields the 96-byte error. -/
theorem C5_witness :
    modexpExecute [] none ctx0
      = .err (.Other "input must contain at least 96 bytes") :=
  (C5_parse_error_characterization [] none ctx0).1.mpr (by decide)

/-- Witness for C6's amended theorem at the `3 ^ 5 % 7` vector. -/
theorem C6_witness :
    modexpExecute sampleInput357 none ctx0 = .crash "Gas limit not provided" :=
  C6_missing_gas_limit_crashes sampleInput357 ctx0 (by decide) (by decide)
    (by decide) (by decide) (by decide) (by decide)

/-- Witness for C7: with gas limit 10 below the minimum cost 200, the
`3 ^ 5 % 7` vector fails with `OutOfGas`. -/
theorem C7_witness :
    modexpExecute sampleInput357 (some 10) ctx0 = .err ExitError.OutOfGas :=
  (C7_out_of_gas_iff sampleInput357 10 ctx0 (by decide) (by decide) (by decide)
    (by decide) (by decide) (by decide)).1.mpr (by decide)

/-- Witness for C8: growing `base_len` from 1 to 2 and `mod_len` from 1
to 2 does not decrease the cost. -/
theorem C8_witness : calculate_gas_cost 1 1 1 5 ≤ calculate_gas_cost 2 1 2 5 :=
  C8_gas_cost_monotone 1 2 1 2 1 5 (by decide) (by decide) (by decide)
    (by decide) (by decide) (by decide)

/-- Witness for C9: a trailing byte and a different context leave the
result unchanged. -/
theorem C9_witness :
    modexpExecute (sampleInput357 ++ [99]) (some 100000) ⟨1, 2, 3⟩
      = modexpExecute sampleInput357 (some 100000) ctx0 :=
  C9_context_and_trailing_bytes_irrelevant (sampleInput357 ++ [99]) sampleInput357
    (some 100000) ⟨1, 2, 3⟩ ctx0 (by decide)

/-- Witness for C10: a 96-byte buffer declaring `exp_len = 5` with
`base_len = mod_len = 0` fails with the insufficient-input error. -/
theorem C10_witness :
    modexpExecute truncatedTrivialInput none ctx0
      = .err (.Other "insufficient input size") :=
  C10_insufficient_before_trivial_shortcut truncatedTrivialInput none ctx0
    (by decide) (by decide) (by decide) (by decide) (by decide)
